import Mathlib

/-!
Verification of the `rivet` POSIX systems library (SPSC byte ring and
readiness selector) against its design specification.

The Rust sources are shallowly embedded:

* `src/buffer/sync.rs` — the `Ring` with its non-blocking `write`/`read`
  cores, the `block`/`unblock`/`disconnect` state protocol and the
  blocking wrappers.
* `src/buffer/map.rs` — `page_aligned`.
* `src/selector/select.rs` — `find_max`, `register`, `reregister`,
  `deregister` of the `select` backend.
* `src/selector/epoll.rs` — `register`, `reregister`, `deregister`,
  `poll_timeout` of the `epoll` backend.
* `src/io.rs` — `read_nb` / `write_nb`.

Machine integers (`usize`) are modelled as `Nat`: the head/tail counters
are monotone 64-bit counters and every quantity involved stays far below
`2^64` in all statements proved here, so wraparound never matters.
Byte values are modelled as `Nat` as well; nothing proved here depends
on them being < 256.
-/

namespace Rivet

/-! ## Ring data model (src/buffer/sync.rs)

`Ring::new` stores `cap` (page-aligned capacity), `mask = cap - 1`, the
doubly-mapped region, and the monotone counters `head` and `tail`.
The physical backing of the double mapping is `cap` bytes; the byte at
virtual offset `v` (for `0 ≤ v < 2·cap`) is the physical byte `v % cap`
(spec invariant 3: offsets `i` and `i + cap` alias).  We model the
physical bytes as a list of length `cap`. -/

structure Ring where
  cap : Nat
  mask : Nat
  data : List Nat
  head : Nat
  tail : Nat
  deriving DecidableEq, Repr

/-- The ring state returned by `Ring::new` after `page_aligned` has
computed the capacity: counters zero, `mask = cap - 1`, fresh backing. -/
def mkRing (cap : Nat) : Ring :=
  { cap := cap, mask := cap - 1, data := List.replicate cap 0,
    head := 0, tail := 0 }

/-- The memcpy of `src` to virtual offset `off` of the double mapping:
the byte `src[i]` lands at physical offset `(off + i) % cap`
(spec invariant 3). -/
def copyAt (cap : Nat) : Nat → List Nat → List Nat → List Nat
  | _, [], data => data
  | off, b :: rest, data => copyAt cap (off + 1) rest (data.set (off % cap) b)

/-- `Ring::write` (src/buffer/sync.rs:181-194), the non-blocking core
behind the public `Producer::try_write`:
`navail = cap - (head - tail)`, `nwrit = min(navail, buf.len())`,
memcpy of `buf[0..nwrit]` to virtual offset `head & mask`, then
`head := head + nwrit`.  Returns the updated ring and `nwrit`. -/
def Ring.write (r : Ring) (buf : List Nat) : Ring × Nat :=
  let navail := r.cap - (r.head - r.tail)
  let nwrit := min navail buf.length
  let off := r.head &&& r.mask
  ({ r with data := copyAt r.cap off (buf.take nwrit) r.data,
            head := r.head + nwrit }, nwrit)

/-- `Ring::read` (src/buffer/sync.rs:196-209), the non-blocking core
behind the public `Consumer::try_read`:
`navail = head - tail`, `nread = min(navail, buf.len())`, memcpy from
virtual offset `tail & mask` into the caller's buffer, then
`tail := tail + nread`.  The caller's buffer is represented by its
length `len`; the returned list is what the memcpy deposited there. -/
def Ring.read (r : Ring) (len : Nat) : Ring × List Nat :=
  let navail := r.head - r.tail
  let nread := min navail len
  let off := r.tail &&& r.mask
  let out := (List.range nread).map (fun j => r.data.getD ((off + j) % r.cap) 0)
  ({ r with tail := r.tail + nread }, out)

/-! ## Interleaved operation sequences -/

/-- One producer/consumer call: a `try_write` with a given source buffer
or a `try_read` into a buffer of a given length. -/
inductive Op where
  | write (buf : List Nat)
  | read (len : Nat)
  deriving DecidableEq, Repr

/-- One step of an interleaved run, threading the ring together with the
trace data: `acc` is the concatenation of the accepted prefixes of all
`try_write` inputs so far, `out` the concatenation of all bytes the
`try_read` calls delivered so far. -/
def stepT : Ring × List Nat × List Nat → Op → Ring × List Nat × List Nat
  | (r, acc, out), .write buf =>
      let res := r.write buf
      (res.1, acc ++ buf.take res.2, out)
  | (r, acc, out), .read len =>
      let res := r.read len
      (res.1, acc, out ++ res.2)

/-- Run an interleaved `try_write`/`try_read` sequence from a fresh ring
of capacity `cap`, collecting the accepted and delivered traces. -/
def runTrace (cap : Nat) (ops : List Op) : Ring × List Nat × List Nat :=
  ops.foldl stepT (mkRing cap, [], [])

/-! ## Invariant predicates for the ring -/

/-- Structural facts preserved by every operation on a ring of capacity
`cap`: the stored capacity and mask, the backing length, and the
counter window `tail ≤ head ≤ tail + cap`. -/
def Bounds (cap : Nat) (r : Ring) : Prop :=
  r.cap = cap ∧ r.mask = cap - 1 ∧ r.data.length = cap ∧
    r.tail ≤ r.head ∧ r.head ≤ r.tail + cap

/-- The FIFO invariant tying a run's ring state to its traces: `head`
counts the accepted bytes, the delivered trace is the prefix of the
accepted trace of length `tail`, and the bytes still buffered (the
window `[tail, head)`) sit in the backing region at their index mod
`cap`. -/
def FifoInv (cap : Nat) (s : Ring × List Nat × List Nat) : Prop :=
  Bounds cap s.1
    ∧ s.1.head = s.2.1.length
    ∧ s.2.2 = s.2.1.take s.1.tail
    ∧ ∀ j, s.1.tail + j < s.1.head →
        s.1.data.getD ((s.1.tail + j) % cap) 0 = s.2.1.getD (s.1.tail + j) 0

/-! ## Capacity computation (src/buffer/map.rs) -/

/-- `page_aligned` (src/buffer/map.rs:24-29): round the requested
capacity (0 treated as 1) up to a multiple of the system page size with
`alloc - (alloc & (pagesize - 1))` where `alloc = cap + pagesize - 1`.
The page size — obtained in the source from `sysconf(_SC_PAGESIZE)` —
is an explicit parameter here. -/
def page_aligned (pagesize cap : Nat) : Nat :=
  let c := if cap = 0 then 1 else cap
  let alloc := c + (pagesize - 1)
  alloc - (alloc &&& (pagesize - 1))

/-- Boolean power-of-two test (strictly positive powers of two), used
to evaluate capacities produced by `page_aligned` on concrete inputs;
`isPow2_two_pow` below grounds it.  The first argument is fuel (at
least the number being tested) so the recursion is structural. -/
def isPow2Aux : Nat → Nat → Bool
  | 0, _ => false
  | _ + 1, 0 => false
  | _ + 1, 1 => true
  | fuel + 1, n + 2 => decide ((n + 2) % 2 = 0) && isPow2Aux fuel ((n + 2) / 2)

def isPow2 (n : Nat) : Bool := isPow2Aux n n

/-! ## Blocking-state protocol (src/buffer/sync.rs:103-108, 229-257) -/

/-- The mutex-guarded state word of the ring. -/
inductive State where
  | Open
  | Blocked
  | Disconnected
  deriving DecidableEq, Repr

/-- `Ring::disconnect` (src/buffer/sync.rs:229-233): under the lock,
unconditionally store `Disconnected` (and `notify_all`).  Returns the
stored state. -/
def disconnect : State → State := fun _ => State.Disconnected

/-- `Ring::unblock` (src/buffer/sync.rs:248-257): under the lock, if the
state is `Disconnected` return it unchanged, otherwise store `Open`,
`notify_one`, and return `Open`.  The pair is (stored state, returned
state). -/
def unblock : State → State × State
  | .Disconnected => (.Disconnected, .Disconnected)
  | _ => (.Open, .Open)

/-- `Ring::block` (src/buffer/sync.rs:235-246): under the lock, wait on
the condition variable while the state is `Blocked`; then return
`Disconnected` if the state is `Disconnected`, else store `Open` and
return `Open`.  The argument is the state the caller observes under the
lock; since no code path ever stores `Blocked`, a caller observing
`Blocked` would wait forever, modelled as `none`.  The pair is (stored
state, returned state). -/
def block : State → Option (State × State)
  | .Blocked => none
  | .Disconnected => some (.Disconnected, .Disconnected)
  | .Open => some (.Open, .Open)

/-! ## Blocking wrappers (src/buffer/sync.rs:211-227)

The source's blocking wrappers (named `try_read`/`try_write` on `Ring`,
called by the public `Consumer::read`/`Producer::write`) are written as
a loop that matches `self.try_read(buf)` — a call to themselves — on
the integer patterns `0`/`n`.  That self-call only typechecks as a call
to the non-blocking core (`Ring::read`/`Ring::write`, which return the
count the match inspects), which is also how the public method pairing
uses the two; the spec's design notes flag the same reading.  The loop
is modelled with explicit `fuel`; `none` means the call has not
returned within `fuel` iterations (it is spinning, or parked forever on
the condition variable with no peer left to wake it). -/

def blockingWrite : Nat → State → Ring → List Nat → Option (Option Nat × Ring)
  | 0, _, _, _ => none
  | fuel + 1, st, r, buf =>
      if (r.write buf).2 = 0 then
        match block st with
        | none => none
        | some p =>
            if p.2 = State.Disconnected then some (none, (r.write buf).1)
            else blockingWrite fuel p.1 (r.write buf).1 buf
      else some (some (r.write buf).2, (r.write buf).1)

def blockingRead : Nat → State → Ring → Nat → Option (Option Nat × Ring)
  | 0, _, _, _ => none
  | fuel + 1, st, r, len =>
      if (r.read len).2.length = 0 then
        match block st with
        | none => none
        | some p =>
            if p.2 = State.Disconnected then some (none, (r.read len).1)
            else blockingRead fuel p.1 (r.read len).1 len
      else some (some (r.read len).2.length, (r.read len).1)

/-! ## Event masks (src/event.rs) -/

/-- `EventSet` (src/event.rs): the portable bitset over
readable/writable/error/hup, modelled as one flag per bit. -/
structure EventSet where
  readable : Bool
  writable : Bool
  error : Bool
  hup : Bool
  deriving DecidableEq, Repr

def EventSet.empty : EventSet := ⟨false, false, false, false⟩

/-! ## Select backend (src/selector/select.rs) -/

def fdSet (fd : Nat) (s : Nat → Bool) : Nat → Bool :=
  fun i => if i = fd then true else s i

def fdClr (fd : Nat) (s : Nat → Bool) : Nat → Bool :=
  fun i => if i = fd then false else s i

/-- Rust's ascending exclusive range `a..b`, as iterated by a `for`
loop: empty whenever `b ≤ a`. -/
def rustRange (a b : Nat) : List Nat := List.range' a (b - a)

/-- `find_max` (src/selector/select.rs:13-21): iterate `prev_max..0`
returning the first descriptor whose bit is set, else 0.  Since the
range `prev_max..0` is empty (it ascends), the loop body never runs. -/
def find_max (s : Nat → Bool) (prevMax : Nat) : Nat :=
  match (rustRange prevMax 0).find? s with
  | some i => i
  | none => 0

/-- The `select` backend's `Selector` (src/selector/select.rs:51-57):
the two descriptor sets and the current maximum descriptor. -/
structure SelSelector where
  maxfd : Nat
  rfds : Nat → Bool
  wfds : Nat → Bool

/-- `Selector::register` (src/selector/select.rs:106-121): set the bit
in `rfds` and/or `wfds` per the mask, raising `maxfd` each time. -/
def SelSelector.register (s : SelSelector) (fd : Nat) (evset : EventSet) :
    SelSelector :=
  let s1 := if evset.readable
    then { s with rfds := fdSet fd s.rfds, maxfd := max fd s.maxfd }
    else s
  if evset.writable
    then { s1 with wfds := fdSet fd s1.wfds, maxfd := max fd s1.maxfd }
    else s1

/-- `Selector::deregister` (src/selector/select.rs:135-147), exactly as
written: `FD_CLR(fd, rfds)` twice (the write set is never cleared), and
if `fd` was `maxfd`, recompute `maxfd` with `find_max` on both sets. -/
def SelSelector.deregister (s : SelSelector) (fd : Nat) : SelSelector :=
  let s1 := { s with rfds := fdClr fd (fdClr fd s.rfds) }
  if fd = s1.maxfd then
    { s1 with maxfd := max (find_max s1.rfds fd) (find_max s1.wfds fd) }
  else s1

/-- `Selector::reregister` (src/selector/select.rs:126-132): if the
mask intersects readable|writable, `register`, else `deregister`. -/
def SelSelector.reregister (s : SelSelector) (fd : Nat) (evset : EventSet) :
    SelSelector :=
  if evset.readable || evset.writable then s.register fd evset
  else s.deregister fd

/-! ## Epoll backend (src/selector/epoll.rs)

The kernel side of `epoll_ctl`/`epoll_wait` is modelled by its
documented contract (epoll(7), as summarised in the spec §4.2.1-4.2.2):
an interest list mapping a descriptor to its requested event flags and
the registration's `data` word; `EPOLL_CTL_ADD` fails with `EEXIST` on
a present descriptor, `MOD`/`DEL` fail with `ENOENT` on an absent one;
a reported event carries the requested events that currently hold, with
`EPOLLERR`/`EPOLLHUP` reported even when not requested. -/

/-- The epoll event flags (src/selector/epoll.rs:24-33). -/
structure EpollFlag where
  epin : Bool
  epout : Bool
  eperr : Bool
  ephup : Bool
  eprdhup : Bool
  deriving DecidableEq, Repr

/-- `From<EventSet> for EpollFlag` (src/selector/epoll.rs:35-54):
readable → `EPOLLIN`, writable → `EPOLLOUT`, error → `EPOLLERR`,
hup → `EPOLLRDHUP` (`EPOLLHUP` is never requested). -/
def EpollFlag.ofEventSet (e : EventSet) : EpollFlag :=
  ⟨e.readable, e.writable, e.error, false, e.hup⟩

/-- `Into<EventSet> for EpollFlag` (src/selector/epoll.rs:56-75):
`EPOLLIN` → readable, `EPOLLOUT` → writable, `EPOLLERR` → error,
`EPOLLHUP | EPOLLRDHUP` → hup. -/
def EpollFlag.toEventSet (f : EpollFlag) : EventSet :=
  ⟨f.epin, f.epout, f.eperr, f.ephup || f.eprdhup⟩

/-- The kernel's epoll interest list: per descriptor, the requested
flags and the registration's `data` word. -/
def EpollInterest : Type := Nat → Option (EpollFlag × Nat)

inductive CtlErr where
  | eexist
  | enoent
  deriving DecidableEq, Repr

def epoll_ctl_add (st : EpollInterest) (fd : Nat) (ev : EpollFlag × Nat) :
    Except CtlErr EpollInterest :=
  match st fd with
  | some _ => .error .eexist
  | none => .ok (fun i => if i = fd then some ev else st i)

def epoll_ctl_mod (st : EpollInterest) (fd : Nat) (ev : EpollFlag × Nat) :
    Except CtlErr EpollInterest :=
  match st fd with
  | some _ => .ok (fun i => if i = fd then some ev else st i)
  | none => .error .enoent

def epoll_ctl_del (st : EpollInterest) (fd : Nat) :
    Except CtlErr EpollInterest :=
  match st fd with
  | some _ => .ok (fun i => if i = fd then none else st i)
  | none => .error .enoent

/-- `Selector::register` (src/selector/epoll.rs:190-197):
`EPOLL_CTL_ADD` with the converted mask, `data = fd`. -/
def epollRegister (st : EpollInterest) (fd : Nat) (evts : EventSet) :
    Except CtlErr EpollInterest :=
  epoll_ctl_add st fd (EpollFlag.ofEventSet evts, fd)

/-- `Selector::reregister` (src/selector/epoll.rs:199-206):
`EPOLL_CTL_MOD` with the converted mask, `data = fd`. -/
def epollReregister (st : EpollInterest) (fd : Nat) (evts : EventSet) :
    Except CtlErr EpollInterest :=
  epoll_ctl_mod st fd (EpollFlag.ofEventSet evts, fd)

/-- `Selector::deregister` (src/selector/epoll.rs:208-215):
`EPOLL_CTL_DEL`. -/
def epollDeregister (st : EpollInterest) (fd : Nat) :
    Except CtlErr EpollInterest :=
  epoll_ctl_del st fd

def emptyInterest : EpollInterest := fun _ => none

/-- Observation helper: the interest-list entry of `fd` after a ctl
call, or `none` if the call failed. -/
def ctlResultAt (res : Except CtlErr EpollInterest) (fd : Nat) :
    Option (Option (EpollFlag × Nat)) :=
  match res with
  | .error _ => none
  | .ok st => some (st fd)

def ctlIsOk : Except CtlErr EpollInterest → Bool
  | .ok _ => true
  | .error _ => false

/-- Chain a second ctl call after a first one. -/
def ctlThen (res : Except CtlErr EpollInterest)
    (f : EpollInterest → Except CtlErr EpollInterest) :
    Except CtlErr EpollInterest :=
  match res with
  | .error e => .error e
  | .ok st => f st

/-- What `epoll_wait` reports for descriptor `fd` when the kernel's
current conditions on it are `cond` (epoll(7), spec §4.2.1): nothing if
unregistered; else the requested events that hold, with
`EPOLLERR`/`EPOLLHUP` always included, converted by
`Fired::from_epoll` — or nothing when no flag fires. -/
def epollReport (st : EpollInterest) (fd : Nat) (cond : EpollFlag) :
    Option EventSet :=
  match st fd with
  | none => none
  | some (req, _) =>
      let fired : EpollFlag :=
        ⟨req.epin && cond.epin, req.epout && cond.epout,
          cond.eperr, cond.ephup, req.eprdhup && cond.eprdhup⟩
      if fired = ⟨false, false, false, false, false⟩ then none
      else some fired.toEventSet

/-- `epollReport` after a ctl call: `none` if the call failed. -/
def reportAfter (res : Except CtlErr EpollInterest) (fd : Nat)
    (cond : EpollFlag) : Option (Option EventSet) :=
  match res with
  | .error _ => none
  | .ok st => some (epollReport st fd cond)

/-! ## Non-blocking stream helpers (src/io.rs) and epoll polling -/

/-- The error kinds relevant to `read_nb`/`write_nb`. -/
inductive IOErrK where
  | interrupted
  | wouldBlock
  | other (code : Nat)
  deriving DecidableEq, Repr

/-- `ReadExt::read_nb` (src/io.rs:8-24), with the successive results of
the underlying `read` calls supplied as `stream`: accumulate `nread`;
stop with `Ok(nread)` on a 0-byte read, full buffer, or `WouldBlock`;
silently retry on `Interrupted`; surface any other error.  `none` means
the supplied stream ran out before the loop returned. -/
def read_nb_go (len nread : Nat) :
    List (Except IOErrK Nat) → Option (Except IOErrK Nat)
  | [] => if nread = len then some (.ok nread) else none
  | res :: rest =>
      if nread = len then some (.ok nread)
      else
        match res with
        | .ok 0 => some (.ok nread)
        | .ok (n + 1) => read_nb_go len (nread + (n + 1)) rest
        | .error .interrupted => read_nb_go len nread rest
        | .error .wouldBlock => some (.ok nread)
        | .error (.other c) => some (.error (.other c))

def read_nb (len : Nat) (stream : List (Except IOErrK Nat)) :
    Option (Except IOErrK Nat) :=
  read_nb_go len 0 stream

/-- `WriteExt::write_nb` (src/io.rs:30-47): identical loop shape with
`nwrit` in place of `nread`. -/
def write_nb_go (len nwrit : Nat) :
    List (Except IOErrK Nat) → Option (Except IOErrK Nat)
  | [] => if nwrit = len then some (.ok nwrit) else none
  | res :: rest =>
      if nwrit = len then some (.ok nwrit)
      else
        match res with
        | .ok 0 => some (.ok nwrit)
        | .ok (n + 1) => write_nb_go len (nwrit + (n + 1)) rest
        | .error .interrupted => write_nb_go len nwrit rest
        | .error .wouldBlock => some (.ok nwrit)
        | .error (.other c) => some (.error (.other c))

def write_nb (len : Nat) (stream : List (Except IOErrK Nat)) :
    Option (Except IOErrK Nat) :=
  write_nb_go len 0 stream

/-- `true` unless the result surfaces `Interrupted` to the caller. -/
def notInterrupted : Option (Except IOErrK Nat) → Bool
  | some (.error .interrupted) => false
  | _ => true

/-- `Selector::poll_timeout` of the epoll backend
(src/selector/epoll.rs:170-188): a single `epoll_wait` whose result is
propagated by `try!` — any error, `EINTR` included, is surfaced — and
on success the returned events are mapped by `Fired::from_epoll`
(`fd` from the `data` word, mask converted).  The kernel call's outcome
is the argument. -/
def epoll_poll_timeout (wait : Except IOErrK (List (Nat × EpollFlag))) :
    Except IOErrK (List (Nat × EventSet)) :=
  match wait with
  | .error e => .error e
  | .ok evs => .ok (evs.map (fun ev => (ev.1, ev.2.toEventSet)))

/-! ## Helper lemmas about the ring operations -/

theorem copyAt_length (cap : Nat) :
    ∀ (src : List Nat) (off : Nat) (data : List Nat),
      (copyAt cap off src data).length = data.length := by
  intro src
  induction src with
  | nil => intro off data; rfl
  | cons b rest ih =>
      intro off data
      simp only [copyAt, ih, List.length_set]

/-- Two distinct naturals lying in a window of width less than `n`
have distinct residues modulo `n`. -/
theorem mod_ne_of_window {n x y : Nat} (hxy : x < y) (hw : y - x < n) :
    x % n ≠ y % n := by
  intro h
  have hdvd : n ∣ y - x := (Nat.modEq_iff_dvd' (Nat.le_of_lt hxy)).mp h
  have hle : n ≤ y - x := Nat.le_of_dvd (by omega) hdvd
  omega

/-- A position missed by every byte of the copy is unchanged. -/
theorem copyAt_getD_miss (cap : Nat) :
    ∀ (src : List Nat) (off : Nat) (data : List Nat) (p : Nat),
      (∀ i, i < src.length → (off + i) % cap ≠ p) →
      (copyAt cap off src data).getD p 0 = data.getD p 0 := by
  intro src
  induction src with
  | nil => intro off data p _; rfl
  | cons b rest ih =>
      intro off data p h
      have hstep : ∀ i, i < rest.length → (off + 1 + i) % cap ≠ p := by
        intro i hi
        have h1 := h (i + 1) (by simpa using hi)
        rw [Nat.add_assoc, Nat.add_comm 1 i]
        exact h1
      have h0 : off % cap ≠ p := by
        have := h 0 (by simp)
        simpa using this
      show (copyAt cap (off + 1) rest (data.set (off % cap) b)).getD p 0
        = data.getD p 0
      rw [ih (off + 1) _ p hstep]
      simp only [List.getD_eq_getElem?_getD]
      rw [List.getElem?_set_ne h0]

/-- The `i`-th byte of the copy ends up at physical position
`(off + i) % cap`, provided the copy is no longer than the region. -/
theorem copyAt_getD_hit (cap : Nat) :
    ∀ (src : List Nat), src.length ≤ cap →
      ∀ (off : Nat) (data : List Nat), data.length = cap →
        ∀ i, i < src.length →
          (copyAt cap off src data).getD ((off + i) % cap) 0 = src.getD i 0 := by
  intro src
  induction src with
  | nil => intro _ off data _ i hi; simp at hi
  | cons b rest ih =>
      intro hlen off data hdata i hi
      have hcap : 0 < cap := by
        have : 0 < (b :: rest).length := by simp
        omega
      match i with
      | 0 =>
          show (copyAt cap (off + 1) rest (data.set (off % cap) b)).getD
              ((off + 0) % cap) 0 = b
          simp only [Nat.add_zero]
          have hmiss : ∀ i, i < rest.length → (off + 1 + i) % cap ≠ off % cap := by
            intro i hi'
            have hw : (off + 1 + i) - off < cap := by
              simp only [List.length_cons] at hlen
              omega
            exact (@mod_ne_of_window cap off (off + 1 + i) (by omega) hw).symm
          rw [copyAt_getD_miss cap rest (off + 1) _ _ hmiss]
          have hlt : off % cap < data.length := by
            rw [hdata]; exact Nat.mod_lt _ hcap
          simp only [List.getD_eq_getElem?_getD]
          rw [List.getElem?_set_self (by simpa using hlt)]
          rfl
      | Nat.succ i' =>
          show (copyAt cap (off + 1) rest (data.set (off % cap) b)).getD
              ((off + (i' + 1)) % cap) 0 = rest.getD i' 0
          have harith : off + (i' + 1) = off + 1 + i' := by omega
          rw [harith]
          exact ih (by simp only [List.length_cons] at hlen; omega)
            (off + 1) _ (by simp [hdata]) i' (by simpa using hi)

/-- Reading `n` positions starting at `t` out of `acc` (as the ring's
read does, via `getD`) is the slice `acc[t .. t+n)`. -/
theorem rangeMap_getD_eq_slice (acc : List Nat) (t n : Nat)
    (h : t + n ≤ acc.length) :
    (List.range n).map (fun j => acc.getD (t + j) 0) = (acc.drop t).take n := by
  apply List.ext_getElem
  · simp
    omega
  · intro j h1 h2
    simp only [List.getElem_map, List.getElem_range, List.getElem_take,
      List.getElem_drop]
    have hjn : j < n := by simpa using h1
    have hj : t + j < acc.length := by omega
    simp only [List.getD_eq_getElem?_getD]
    rw [List.getElem?_eq_getElem hj]
    rfl

/-! ## Counter bounds -/

theorem bounds_write {cap : Nat} {r : Ring} (h : Bounds cap r)
    (buf : List Nat) : Bounds cap (r.write buf).1 := by
  obtain ⟨hc, hm, hd, h1, h2⟩ := h
  have hmin : min (r.cap - (r.head - r.tail)) buf.length
      ≤ r.cap - (r.head - r.tail) := Nat.min_le_left _ _
  refine ⟨hc, hm, ?_, ?_, ?_⟩ <;>
    simp only [Ring.write, copyAt_length] <;> omega

theorem bounds_read {cap : Nat} {r : Ring} (h : Bounds cap r)
    (len : Nat) : Bounds cap (r.read len).1 := by
  obtain ⟨hc, hm, hd, h1, h2⟩ := h
  have hmin : min (r.head - r.tail) len ≤ r.head - r.tail :=
    Nat.min_le_left _ _
  refine ⟨hc, hm, ?_, ?_, ?_⟩ <;> simp only [Ring.read] <;> omega

theorem bounds_foldl (cap : Nat) :
    ∀ (ops : List Op) (s : Ring × List Nat × List Nat),
      Bounds cap s.1 → Bounds cap ((ops.foldl stepT s)).1 := by
  intro ops
  induction ops with
  | nil => intro s h; exact h
  | cons op rest ih =>
      intro s h
      refine ih (stepT s op) ?_
      obtain ⟨r, acc, out⟩ := s
      cases op with
      | write buf => exact bounds_write h buf
      | read len => exact bounds_read h len

theorem bounds_mkRing (cap : Nat) : Bounds cap (mkRing cap) := by
  refine ⟨rfl, rfl, ?_, Nat.le_refl _, ?_⟩ <;> simp [mkRing]

/-! ## Claim C3 and C4 theorems -/

/-- C3: for every ring state and buffer, the non-blocking write returns
0 when the ring is full (`head − tail = cap`) and in general returns
`min(buf.len(), cap − (head − tail))`; symmetrically the non-blocking
read returns 0 on an empty ring (`head = tail`) and in general
`min(buf.len(), head − tail)` bytes. -/
theorem try_write_try_read_return_counts
    (r : Ring) (buf : List Nat) (len : Nat) :
    ((r.write buf).2 = min buf.length (r.cap - (r.head - r.tail))
      ∧ (r.head - r.tail = r.cap → (r.write buf).2 = 0))
    ∧ ((r.read len).2.length = min len (r.head - r.tail)
      ∧ (r.head = r.tail → (r.read len).2.length = 0)) := by
  refine ⟨⟨?_, ?_⟩, ?_, ?_⟩
  · simp only [Ring.write, Nat.min_comm]
  · intro hfull
    simp only [Ring.write, hfull, Nat.sub_self, Nat.zero_min]
  · simp only [Ring.read, List.length_map, List.length_range, Nat.min_comm]
  · intro hempty
    simp only [Ring.read, hempty, Nat.sub_self, Nat.zero_min,
      List.range_zero, List.map_nil, List.length_nil]

/-- Witness for `try_write_try_read_return_counts`: a concrete full ring
(capacity 4, `head = 4`, `tail = 0`) on which the non-blocking write
returns 0, and a concrete empty ring on which the non-blocking read
returns 0. -/
theorem try_write_try_read_return_counts_witness :
    (((mkRing 4).write [9, 9, 9, 9]).1.write [1, 2]).2 = 0
      ∧ ((mkRing 4).read 3).2.length = 0 :=
  ⟨(try_write_try_read_return_counts ((mkRing 4).write [9, 9, 9, 9]).1
      [1, 2] 3).1.2 (by decide),
   (try_write_try_read_return_counts (mkRing 4) [1, 2] 3).2.2 (by decide)⟩

/-- C4: for every capacity and every interleaved sequence of
non-blocking writes and reads starting from a fresh ring,
`0 ≤ head − tail ≤ cap` holds afterwards (and hence after every
operation, taking prefixes of the sequence); moreover each write leaves
`tail` unchanged and never decreases `head`, and each read leaves
`head` unchanged and never decreases `tail` (monotone counters). -/
theorem ring_counter_invariant (cap : Nat) (ops : List Op) :
    ((runTrace cap ops).1.tail ≤ (runTrace cap ops).1.head
      ∧ (runTrace cap ops).1.head - (runTrace cap ops).1.tail
          ≤ (runTrace cap ops).1.cap)
    ∧ (∀ (r : Ring) (buf : List Nat) (len : Nat),
        (r.head ≤ ((r.write buf).1).head ∧ ((r.write buf).1).tail = r.tail)
        ∧ (r.tail ≤ ((r.read len).1).tail ∧ ((r.read len).1).head = r.head)) := by
  constructor
  · have h := bounds_foldl cap ops (mkRing cap, [], []) (bounds_mkRing cap)
    obtain ⟨hc, _, _, h1, h2⟩ := h
    simp only [runTrace]
    exact ⟨h1, by omega⟩
  · intro r buf len
    refine ⟨⟨?_, rfl⟩, ?_, rfl⟩
    · simp only [Ring.write]
      exact Nat.le_add_right _ _
    · simp only [Ring.read]
      exact Nat.le_add_right _ _

/-! ## FIFO correspondence (claim C1) -/

theorem getD_append_left (l l' : List Nat) (n : Nat) (h : n < l.length) :
    (l ++ l').getD n 0 = l.getD n 0 := by
  simp only [List.getD_eq_getElem?_getD, List.getElem?_append_left h]

theorem getD_append_right (l l' : List Nat) (i : Nat) :
    (l ++ l').getD (l.length + i) 0 = l'.getD i 0 := by
  simp only [List.getD_eq_getElem?_getD]
  rw [List.getElem?_append_right (Nat.le_add_right _ _),
    Nat.add_sub_cancel_left]

theorem write_def (r : Ring) (buf : List Nat) :
    r.write buf =
      ({ r with
          data := copyAt r.cap (r.head &&& r.mask)
                    (buf.take (min (r.cap - (r.head - r.tail)) buf.length))
                    r.data,
          head := r.head + min (r.cap - (r.head - r.tail)) buf.length },
        min (r.cap - (r.head - r.tail)) buf.length) := rfl

theorem read_def (r : Ring) (len : Nat) :
    r.read len =
      ({ r with tail := r.tail + min (r.head - r.tail) len },
        (List.range (min (r.head - r.tail) len)).map
          (fun j => r.data.getD (((r.tail &&& r.mask) + j) % r.cap) 0)) := rfl

theorem fifo_mkRing (cap : Nat) : FifoInv cap (mkRing cap, [], []) := by
  refine ⟨bounds_mkRing cap, rfl, rfl, ?_⟩
  intro j hj
  simp [mkRing] at hj

theorem fifo_write {k cap : Nat} (hcap : cap = 2 ^ k)
    {r : Ring} {acc out buf : List Nat}
    (h : FifoInv cap (r, acc, out)) :
    FifoInv cap (stepT (r, acc, out) (.write buf)) := by
  obtain ⟨⟨hc, hm, hd, h1, h2⟩, hh, ho, hcorr⟩ := h
  dsimp only at hc hm hd h1 h2 hh ho hcorr
  subst hc
  have hoff : r.head &&& r.mask = r.head % r.cap := by
    rw [hm, hcap, Nat.and_pow_two_sub_one_eq_mod]
  show FifoInv r.cap
    ((r.write buf).1, acc ++ buf.take (r.write buf).2, out)
  rw [write_def]
  set nw := min (r.cap - (r.head - r.tail)) buf.length with hnwdef
  have hnw1 : nw ≤ r.cap - (r.head - r.tail) := Nat.min_le_left _ _
  have hnw2 : nw ≤ buf.length := Nat.min_le_right _ _
  have htake : (buf.take nw).length = nw := List.length_take_of_le hnw2
  have htailacc : r.tail ≤ acc.length := by omega
  refine ⟨?_, ?_, ?_, ?_⟩
  · have := @bounds_write r.cap r ⟨rfl, hm, hd, h1, h2⟩ buf
    rw [write_def] at this
    exact this
  · simp only [List.length_append, htake, hh]
  · show out = (acc ++ buf.take nw).take r.tail
    rw [ho, List.take_append_of_le_length htailacc]
  · intro j hj
    simp only at hj ⊢
    rw [hoff]
    by_cases hcase : r.tail + j < r.head
    · have hmiss : ∀ i, i < (buf.take nw).length →
          (r.head % r.cap + i) % r.cap ≠ (r.tail + j) % r.cap := by
        intro i hi
        rw [htake] at hi
        rw [Nat.mod_add_mod]
        exact (mod_ne_of_window (by omega) (by omega)).symm
      rw [copyAt_getD_miss _ _ _ _ _ hmiss, hcorr j hcase,
        getD_append_left _ _ _ (by omega)]
    · have hige : r.head ≤ r.tail + j := by omega
      have hidx : r.tail + j = r.head + (r.tail + j - r.head) := by omega
      set i := r.tail + j - r.head with hidef
      have hilt : i < nw := by omega
      rw [hidx, ← Nat.mod_add_mod,
        copyAt_getD_hit _ _ (by omega) _ _ hd i (by omega),
        hh, getD_append_right]

theorem fifo_read {k cap : Nat} (hcap : cap = 2 ^ k)
    {r : Ring} {acc out : List Nat} {len : Nat}
    (h : FifoInv cap (r, acc, out)) :
    FifoInv cap (stepT (r, acc, out) (.read len)) := by
  obtain ⟨⟨hc, hm, hd, h1, h2⟩, hh, ho, hcorr⟩ := h
  dsimp only at hc hm hd h1 h2 hh ho hcorr
  subst hc
  have hoff : r.tail &&& r.mask = r.tail % r.cap := by
    rw [hm, hcap, Nat.and_pow_two_sub_one_eq_mod]
  show FifoInv r.cap ((r.read len).1, acc, out ++ (r.read len).2)
  rw [read_def]
  set nr := min (r.head - r.tail) len with hnrdef
  have hnr1 : nr ≤ r.head - r.tail := Nat.min_le_left _ _
  have hbytes : (List.range nr).map
      (fun j => r.data.getD (((r.tail &&& r.mask) + j) % r.cap) 0)
      = (acc.drop r.tail).take nr := by
    rw [← rangeMap_getD_eq_slice acc r.tail nr (by omega)]
    apply List.map_congr_left
    intro j hj
    rw [List.mem_range] at hj
    rw [hoff, Nat.mod_add_mod, hcorr j (by omega)]
  refine ⟨?_, hh, ?_, ?_⟩
  · have := @bounds_read r.cap r ⟨rfl, hm, hd, h1, h2⟩ len
    rw [read_def] at this
    exact this
  · show out ++ _ = acc.take (r.tail + nr)
    dsimp only
    rw [hbytes, ho, List.take_add]
  · intro j hj
    simp only at hj ⊢
    have := hcorr (nr + j) (by omega)
    rw [← Nat.add_assoc] at this
    exact this

theorem fifo_foldl {k cap : Nat} (hcap : cap = 2 ^ k) :
    ∀ (ops : List Op) (s : Ring × List Nat × List Nat),
      FifoInv cap s → FifoInv cap (ops.foldl stepT s) := by
  intro ops
  induction ops with
  | nil => intro s h; exact h
  | cons op rest ih =>
      intro s h
      refine ih (stepT s op) ?_
      obtain ⟨r, acc, out⟩ := s
      cases op with
      | write buf => exact fifo_write hcap h
      | read len => exact fifo_read hcap h

theorem fifo_runTrace (k : Nat) (ops : List Op) :
    FifoInv (2 ^ k) (runTrace (2 ^ k) ops) :=
  fifo_foldl rfl ops _ (fifo_mkRing (2 ^ k))

/-- C1 (amended: power-of-two capacities): for every power-of-two ring
capacity and every interleaved `try_write`/`try_read` sequence from a
fresh ring, the delivered bytes are exactly the prefix (of length
`tail`) of the concatenation of the accepted write prefixes, and
draining the ring with one final full-capacity read recovers that
concatenation entirely: no byte is lost, duplicated, or reordered. -/
theorem ring_fifo_pow2_capacity (k : Nat) (ops : List Op) :
    (runTrace (2 ^ k) ops).2.2
      = (runTrace (2 ^ k) ops).2.1.take (runTrace (2 ^ k) ops).1.tail
    ∧ (runTrace (2 ^ k) ops).2.2
        ++ ((runTrace (2 ^ k) ops).1.read (runTrace (2 ^ k) ops).1.cap).2
      = (runTrace (2 ^ k) ops).2.1 := by
  obtain ⟨⟨hc, hm, hd, h1, h2⟩, hh, ho, hcorr⟩ := fifo_runTrace k ops
  refine ⟨ho, ?_⟩
  rw [read_def]
  dsimp only
  set r := (runTrace (2 ^ k) ops).1
  set acc := (runTrace (2 ^ k) ops).2.1
  have hoff : r.tail &&& r.mask = r.tail % r.cap := by
    rw [hm, hc, Nat.and_pow_two_sub_one_eq_mod]
  have hnr : min (r.head - r.tail) r.cap = r.head - r.tail :=
    Nat.min_eq_left (by omega)
  rw [hnr]
  have hbytes : (List.range (r.head - r.tail)).map
      (fun j => r.data.getD (((r.tail &&& r.mask) + j) % r.cap) 0)
      = acc.drop r.tail := by
    have hslice := rangeMap_getD_eq_slice acc r.tail (r.head - r.tail)
      (by omega)
    have hcongr : (List.range (r.head - r.tail)).map
        (fun j => r.data.getD (((r.tail &&& r.mask) + j) % r.cap) 0)
        = (List.range (r.head - r.tail)).map
            (fun j => acc.getD (r.tail + j) 0) := by
      apply List.map_congr_left
      intro j hj
      rw [List.mem_range] at hj
      rw [hoff, Nat.mod_add_mod, hc, hcorr j (by omega)]
    rw [hcongr, hslice, List.take_of_length_le]
    simp only [List.length_drop]
    omega
  rw [hbytes, ho, List.take_append_drop]

/-- C1 counterexample for the claim over arbitrary capacities: with the
non-power-of-two capacity 12 (which `Ring::new` really produces, since
`page_aligned` only rounds up to a page multiple — e.g. a requested
capacity of `3 × pagesize`), the run write [7,…,1,2] (12 bytes),
read 10, write [5], read 3 delivers a final byte 7 where the accepted
stream holds 5: `head & mask` is not `head mod cap` once `head` passes
12, so FIFO order is violated. -/
theorem ring_fifo_counterexample_cap12 :
    ¬ ((runTrace 12 [Op.write [7, 0, 0, 0, 0, 0, 0, 0, 0, 0, 1, 2],
          Op.read 10, Op.write [5], Op.read 3]).2.2
        = (runTrace 12 [Op.write [7, 0, 0, 0, 0, 0, 0, 0, 0, 0, 1, 2],
            Op.read 10, Op.write [5], Op.read 3]).2.1.take
          (runTrace 12 [Op.write [7, 0, 0, 0, 0, 0, 0, 0, 0, 0, 1, 2],
            Op.read 10, Op.write [5], Op.read 3]).1.tail) := by
  decide

/-! ## Capacity computation: claim C2 -/

theorem isPow2Aux_two_pow :
    ∀ (fuel k n : Nat), n = 2 ^ k → n ≤ fuel → isPow2Aux fuel n = true := by
  intro fuel
  induction fuel with
  | zero =>
      intro k n hn hle
      have hpos : 0 < n := hn ▸ Nat.pos_pow_of_pos k (by omega)
      exact absurd hle (by omega)
  | succ fuel ih =>
      intro k n hn hle
      match k with
      | 0 =>
          have h1 : n = 1 := by simpa using hn
          subst h1
          rfl
      | k' + 1 =>
          have h2 : 0 < 2 ^ k' := Nat.pos_pow_of_pos k' (by omega)
          have hn2 : n = 2 * 2 ^ k' := by
            rw [hn, Nat.pow_succ]
            ring
          obtain ⟨m, hm⟩ : ∃ m, n = m + 2 := ⟨n - 2, by omega⟩
          subst hm
          show isPow2Aux (fuel + 1) (m + 2) = true
          rw [isPow2Aux]
          have hmod : (m + 2) % 2 = 0 := by omega
          have hdiv : (m + 2) / 2 = 2 ^ k' := by omega
          rw [hdiv, ih k' (2 ^ k') rfl (by omega)]
          simp [hmod]

/-- `isPow2` recognises every power of two (grounding the Boolean check
used in the `page_aligned` evaluation). -/
theorem isPow2_two_pow (k : Nat) : isPow2 (2 ^ k) = true :=
  isPow2Aux_two_pow (2 ^ k) k (2 ^ k) rfl (Nat.le_refl _)

/-- For a power-of-two page size, `page_aligned` computes exactly the
least page multiple of `max(cap, 1)` in ceiling-division form — and
nothing more: no rounding to a power of two happens. -/
theorem sub_land_pow2_mask (a p : Nat) :
    a - (a &&& (2 ^ p - 1)) = 2 ^ p * (a / 2 ^ p) := by
  rw [Nat.and_pow_two_sub_one_eq_mod]
  have h := Nat.div_add_mod a (2 ^ p)
  omega

theorem page_aligned_pow2 (p cap : Nat) :
    page_aligned (2 ^ p) cap
      = 2 ^ p * (((if cap = 0 then 1 else cap) + (2 ^ p - 1)) / 2 ^ p) :=
  sub_land_pow2_mask ((if cap = 0 then 1 else cap) + (2 ^ p - 1)) p

/-- C2: evaluation of the capacity computation at the failing input.
`Ring::new` takes its capacity straight from `page_aligned`, which only
rounds up to a page multiple and never to a power of two: with page
size 4096, a requested capacity of 12288 (= 3 × 4096) yields capacity
12288 — not a power of two, so `mask = 12287` is not a valid index
mask — where the claim requires 16384.  (The `ring(0)` edge case does
hold: capacity = the page size.) -/
theorem page_aligned_missing_pow2_rounding :
    page_aligned 4096 12288 = 12288
    ∧ isPow2 12288 = false
    ∧ page_aligned 4096 0 = 4096
    ∧ isPow2 4096 = true := by
  refine ⟨by decide, by decide, by decide, by decide⟩

/-! ## Blocking-state protocol: claim C5 -/

/-- C5: complete evaluation of the state protocol as written.  `block`
entered with state `Open` stores `Open` — not `Blocked` as the claim
requires — and waits only while the state is already `Blocked`; since
neither `block`, `unblock` nor `disconnect` ever stores `Blocked`, the
condition-variable wait is unreachable from the initial `Open` state
and the claimed `Open → Blocked` transition never happens. -/
theorem block_never_stores_blocked :
    block State.Open = some (State.Open, State.Open)
    ∧ block State.Disconnected
        = some (State.Disconnected, State.Disconnected)
    ∧ block State.Blocked = none
    ∧ unblock State.Open = (State.Open, State.Open)
    ∧ unblock State.Blocked = (State.Open, State.Open)
    ∧ unblock State.Disconnected = (State.Disconnected, State.Disconnected)
    ∧ disconnect State.Open = State.Disconnected
    ∧ disconnect State.Blocked = State.Disconnected
    ∧ disconnect State.Disconnected = State.Disconnected :=
  ⟨rfl, rfl, rfl, rfl, rfl, rfl, rfl, rfl, rfl⟩

/-! ## Select backend: claim C7 -/

/-- C7: evaluation of `deregister` at a concrete selector.  Register
fd 1 readable and fd 2 writable (so `maxfd = 2`), then deregister
fd 2: the write-set bit of fd 2 is still set (the code clears the
read set twice and never the write set), and `maxfd` drops to 0 even
though fd 1 is still registered (`find_max` iterates the empty range
`prev_max..0`, so it always returns 0 — last conjunct). -/
theorem select_deregister_divergence :
    (((SelSelector.mk 0 (fun _ => false) (fun _ => false)).register 1
        ⟨true, false, false, false⟩).register 2 ⟨false, true, false, false⟩
      |>.deregister 2).wfds 2 = true
    ∧ (((SelSelector.mk 0 (fun _ => false) (fun _ => false)).register 1
        ⟨true, false, false, false⟩).register 2 ⟨false, true, false, false⟩
      |>.deregister 2).maxfd = 0
    ∧ (((SelSelector.mk 0 (fun _ => false) (fun _ => false)).register 1
        ⟨true, false, false, false⟩).register 2 ⟨false, true, false, false⟩
      |>.deregister 2).rfds 1 = true
    ∧ find_max (fun _ => true) 5 = 0 :=
  ⟨rfl, rfl, rfl, rfl⟩

/-! ## Reregister with an empty mask: claim C8 -/

/-- C8 (amended: select backend only): in the `select` backend,
`reregister(fd, ∅)` takes the non-intersecting branch and literally
calls `deregister(fd)`, so the resulting selector states are equal for
every selector and descriptor. -/
theorem select_reregister_empty_eq_deregister (s : SelSelector) (fd : Nat) :
    s.reregister fd EventSet.empty = s.deregister fd := rfl

/-- C8 counterexample (epoll backend): starting from fd 5 registered
readable, an empty-mask `reregister` issues `EPOLL_CTL_MOD` and leaves
fd 5 on the interest list with no requested events, while `deregister`
removes it.  The difference is observable through the backend's own
API: a subsequent `register(5, readable)` fails with `EEXIST` after the
former and succeeds after the latter, and a hang-up condition on fd 5
is still reported (epoll reports `EPOLLHUP` even when not requested)
after the former but not after the latter. -/
theorem epoll_reregister_empty_ne_deregister :
    ctlResultAt (ctlThen
        (epollRegister emptyInterest 5 ⟨true, false, false, false⟩)
        (fun st => epollReregister st 5 EventSet.empty)) 5
      = some (some (⟨false, false, false, false, false⟩, 5))
    ∧ ctlResultAt (ctlThen
        (epollRegister emptyInterest 5 ⟨true, false, false, false⟩)
        (fun st => epollDeregister st 5)) 5
      = some none
    ∧ ctlIsOk (ctlThen (ctlThen
        (epollRegister emptyInterest 5 ⟨true, false, false, false⟩)
        (fun st => epollReregister st 5 EventSet.empty))
        (fun st => epollRegister st 5 ⟨true, false, false, false⟩)) = false
    ∧ ctlIsOk (ctlThen (ctlThen
        (epollRegister emptyInterest 5 ⟨true, false, false, false⟩)
        (fun st => epollDeregister st 5))
        (fun st => epollRegister st 5 ⟨true, false, false, false⟩)) = true
    ∧ reportAfter (ctlThen
        (epollRegister emptyInterest 5 ⟨true, false, false, false⟩)
        (fun st => epollReregister st 5 EventSet.empty)) 5
        ⟨false, false, false, true, false⟩
      = some (some ⟨false, false, false, true⟩)
    ∧ reportAfter (ctlThen
        (epollRegister emptyInterest 5 ⟨true, false, false, false⟩)
        (fun st => epollDeregister st 5)) 5
        ⟨false, false, false, true, false⟩
      = some none :=
  ⟨rfl, rfl, rfl, rfl, rfl, rfl⟩

/-! ## EINTR handling: claim C9 -/

theorem read_nb_go_not_interrupted (len : Nat) :
    ∀ (stream : List (Except IOErrK Nat)) (nread : Nat),
      notInterrupted (read_nb_go len nread stream) = true := by
  intro stream
  induction stream with
  | nil =>
      intro nread
      show notInterrupted
        (if nread = len then some (Except.ok nread) else none) = true
      split <;> rfl
  | cons res rest ih =>
      intro nread
      match res with
      | .ok 0 =>
          show notInterrupted (if nread = len then some (Except.ok nread)
            else some (Except.ok nread)) = true
          split <;> rfl
      | .ok (n + 1) =>
          show notInterrupted (if nread = len then some (Except.ok nread)
            else read_nb_go len (nread + (n + 1)) rest) = true
          split
          · rfl
          · exact ih _
      | .error .interrupted =>
          show notInterrupted (if nread = len then some (Except.ok nread)
            else read_nb_go len nread rest) = true
          split
          · rfl
          · exact ih _
      | .error .wouldBlock =>
          show notInterrupted (if nread = len then some (Except.ok nread)
            else some (Except.ok nread)) = true
          split <;> rfl
      | .error (.other c) =>
          show notInterrupted (if nread = len then some (Except.ok nread)
            else some (Except.error (IOErrK.other c))) = true
          split <;> rfl

theorem write_nb_go_not_interrupted (len : Nat) :
    ∀ (stream : List (Except IOErrK Nat)) (nwrit : Nat),
      notInterrupted (write_nb_go len nwrit stream) = true := by
  intro stream
  induction stream with
  | nil =>
      intro nwrit
      show notInterrupted
        (if nwrit = len then some (Except.ok nwrit) else none) = true
      split <;> rfl
  | cons res rest ih =>
      intro nwrit
      match res with
      | .ok 0 =>
          show notInterrupted (if nwrit = len then some (Except.ok nwrit)
            else some (Except.ok nwrit)) = true
          split <;> rfl
      | .ok (n + 1) =>
          show notInterrupted (if nwrit = len then some (Except.ok nwrit)
            else write_nb_go len (nwrit + (n + 1)) rest) = true
          split
          · rfl
          · exact ih _
      | .error .interrupted =>
          show notInterrupted (if nwrit = len then some (Except.ok nwrit)
            else write_nb_go len nwrit rest) = true
          split
          · rfl
          · exact ih _
      | .error .wouldBlock =>
          show notInterrupted (if nwrit = len then some (Except.ok nwrit)
            else some (Except.ok nwrit)) = true
          split <;> rfl
      | .error (.other c) =>
          show notInterrupted (if nwrit = len then some (Except.ok nwrit)
            else some (Except.error (IOErrK.other c))) = true
          split <;> rfl

/-- C9 (amended): `read_nb`/`write_nb` retry `EINTR` transparently and
never surface it, whatever results the underlying stream produces; the
epoll `poll_timeout`, by contrast, propagates any `epoll_wait` error to
the caller unchanged — including `EINTR`. -/
theorem eintr_retried_in_stream_helpers_surfaced_by_poll :
    (∀ (len : Nat) (stream : List (Except IOErrK Nat)),
        notInterrupted (read_nb len stream) = true)
    ∧ (∀ (len : Nat) (stream : List (Except IOErrK Nat)),
        notInterrupted (write_nb len stream) = true)
    ∧ (∀ (e : IOErrK), epoll_poll_timeout (.error e) = .error e) :=
  ⟨fun len stream => read_nb_go_not_interrupted len stream 0,
   fun len stream => write_nb_go_not_interrupted len stream 0,
   fun _ => rfl⟩

/-- C9 counterexample: when `epoll_wait` fails with `EINTR`, the epoll
backend's `poll_timeout` surfaces `Interrupted` to the caller instead
of retrying. -/
theorem epoll_poll_surfaces_eintr :
    epoll_poll_timeout (Except.error IOErrK.interrupted)
      = Except.error IOErrK.interrupted := rfl

/-! ## Blocking wrappers: claims C6 and C10 -/

theorem write_zero_ring (r : Ring) (buf : List Nat)
    (h : (r.write buf).2 = 0) : (r.write buf).1 = r := by
  have h' : min (r.cap - (r.head - r.tail)) buf.length = 0 := h
  show ({ r with
      data := copyAt r.cap (r.head &&& r.mask)
        (buf.take (min (r.cap - (r.head - r.tail)) buf.length)) r.data,
      head := r.head + min (r.cap - (r.head - r.tail)) buf.length } : Ring) = r
  rw [h']
  simp [copyAt]

theorem read_zero_ring (r : Ring) (len : Nat)
    (h : (r.read len).2.length = 0) : (r.read len).1 = r := by
  have h' : min (r.head - r.tail) len = 0 := by
    simpa [Ring.read] using h
  show ({ r with tail := r.tail + min (r.head - r.tail) len } : Ring) = r
  rw [h']
  simp

theorem blockingWrite_some_pos :
    ∀ (fuel : Nat) (st : State) (r : Ring) (buf : List Nat) (n : Nat)
      (r' : Ring), blockingWrite fuel st r buf = some (some n, r') → 0 < n := by
  intro fuel
  induction fuel with
  | zero =>
      intro st r buf n r' h
      simp [blockingWrite] at h
  | succ fuel ih =>
      intro st r buf n r' h
      by_cases hz : (r.write buf).2 = 0
      · cases st with
        | Blocked => simp [blockingWrite, block, hz] at h
        | Disconnected => simp [blockingWrite, block, hz] at h
        | Open =>
            simp [blockingWrite, block, hz] at h
            exact ih _ _ _ _ _ h
      · simp [blockingWrite, hz] at h
        omega

theorem blockingRead_some_pos :
    ∀ (fuel : Nat) (st : State) (r : Ring) (len : Nat) (n : Nat)
      (r' : Ring), blockingRead fuel st r len = some (some n, r') → 0 < n := by
  intro fuel
  induction fuel with
  | zero =>
      intro st r len n r' h
      simp [blockingRead] at h
  | succ fuel ih =>
      intro st r len n r' h
      by_cases hz : (r.read len).2.length = 0
      · cases st with
        | Blocked => simp [blockingRead, block, hz] at h
        | Disconnected => simp [blockingRead, block, hz] at h
        | Open =>
            simp [blockingRead, block, hz] at h
            exact ih _ _ _ _ _ h
      · simp [blockingRead, hz] at h
        omega

theorem blockingWrite_none_disconnected :
    ∀ (fuel : Nat) (st : State) (r : Ring) (buf : List Nat) (r' : Ring),
      blockingWrite fuel st r buf = some (none, r') →
        st = State.Disconnected ∧ r' = r
          ∧ min (r.cap - (r.head - r.tail)) buf.length = 0 := by
  intro fuel
  induction fuel with
  | zero =>
      intro st r buf r' h
      simp [blockingWrite] at h
  | succ fuel ih =>
      intro st r buf r' h
      by_cases hz : (r.write buf).2 = 0
      · cases st with
        | Blocked => simp [blockingWrite, block, hz] at h
        | Open =>
            simp [blockingWrite, block, hz] at h
            obtain ⟨habs, -, -⟩ := ih _ _ _ _ h
            exact absurd habs (by decide)
        | Disconnected =>
            simp [blockingWrite, block, hz] at h
            refine ⟨rfl, ?_, hz⟩
            rw [← h]
            exact write_zero_ring r buf hz
      · simp [blockingWrite, hz] at h

theorem blockingRead_none_disconnected :
    ∀ (fuel : Nat) (st : State) (r : Ring) (len : Nat) (r' : Ring),
      blockingRead fuel st r len = some (none, r') →
        st = State.Disconnected ∧ r' = r
          ∧ min (r.head - r.tail) len = 0 := by
  intro fuel
  induction fuel with
  | zero =>
      intro st r len r' h
      simp [blockingRead] at h
  | succ fuel ih =>
      intro st r len r' h
      by_cases hz : (r.read len).2.length = 0
      · cases st with
        | Blocked => simp [blockingRead, block, hz] at h
        | Open =>
            simp [blockingRead, block, hz] at h
            obtain ⟨habs, -, -⟩ := ih _ _ _ _ h
            exact absurd habs (by decide)
        | Disconnected =>
            simp [blockingRead, block, hz] at h
            refine ⟨rfl, ?_, by simpa [Ring.read] using hz⟩
            rw [← h]
            exact read_zero_ring r len hz
      · simp [blockingRead, hz] at h

theorem blockingWrite_disconnected_immediate (fuel : Nat) (r : Ring)
    (buf : List Nat) (h : min (r.cap - (r.head - r.tail)) buf.length = 0) :
    blockingWrite (fuel + 1) State.Disconnected r buf = some (none, r) := by
  have hz : (r.write buf).2 = 0 := h
  simp [blockingWrite, block, hz, write_zero_ring r buf hz]

theorem blockingRead_disconnected_immediate (fuel : Nat) (r : Ring)
    (len : Nat) (h : min (r.head - r.tail) len = 0) :
    blockingRead (fuel + 1) State.Disconnected r len = some (none, r) := by
  have hz : (r.read len).2.length = 0 := by
    simp [Ring.read, h]
  simp [blockingRead, block, hz, read_zero_ring r len hz]

/-- C6 (amended): return values of the blocking `write`/`read` loops.
A successful return is always `Some(n)` with `n > 0`; `None` is
returned only with the state `Disconnected` and only when the
non-blocking core cannot transfer at that moment — for `write`, no
space (or an empty source); for `read`, no buffered byte
(`head = tail`, i.e. all bytes remaining at disconnect have been
drained) or an empty destination buffer, the latter being the case the
original claim overlooks; and as soon as those conditions hold the call
does return `None`.  The ring is unchanged on a `None` return. -/
theorem blocking_calls_return_semantics (fuel : Nat) (st : State)
    (r : Ring) (buf : List Nat) (len : Nat) :
    (∀ n r', blockingWrite fuel st r buf = some (some n, r') → 0 < n)
    ∧ (∀ n r', blockingRead fuel st r len = some (some n, r') → 0 < n)
    ∧ (∀ r', blockingWrite fuel st r buf = some (none, r') →
        st = State.Disconnected ∧ r' = r
          ∧ min (r.cap - (r.head - r.tail)) buf.length = 0)
    ∧ (∀ r', blockingRead fuel st r len = some (none, r') →
        st = State.Disconnected ∧ r' = r ∧ min (r.head - r.tail) len = 0)
    ∧ (st = State.Disconnected →
        min (r.cap - (r.head - r.tail)) buf.length = 0 →
        blockingWrite (fuel + 1) st r buf = some (none, r))
    ∧ (st = State.Disconnected → min (r.head - r.tail) len = 0 →
        blockingRead (fuel + 1) st r len = some (none, r)) :=
  ⟨fun n r' => blockingWrite_some_pos fuel st r buf n r',
   fun n r' => blockingRead_some_pos fuel st r len n r',
   fun r' => blockingWrite_none_disconnected fuel st r buf r',
   fun r' => blockingRead_none_disconnected fuel st r len r',
   fun hst hmin => hst ▸ blockingWrite_disconnected_immediate fuel r buf hmin,
   fun hst hmin => hst ▸ blockingRead_disconnected_immediate fuel r len hmin⟩

/-- Witness for `blocking_calls_return_semantics`: on a fresh ring of
capacity 4, a blocking write of one byte returns `Some(1) > 0`, and a
blocking read on an empty disconnected ring returns `None`. -/
theorem blocking_calls_return_semantics_witness :
    blockingWrite 1 State.Open (mkRing 4) [7]
        = some (some 1, ((mkRing 4).write [7]).1)
    ∧ 0 < 1
    ∧ blockingRead 1 State.Disconnected (mkRing 4) 3 = some (none, mkRing 4)
    ∧ State.Disconnected = State.Disconnected :=
  ⟨by decide,
   (blocking_calls_return_semantics 1 State.Open (mkRing 4) [7] 3).1 1
     ((mkRing 4).write [7]).1 (by decide),
   (blocking_calls_return_semantics 0 State.Disconnected (mkRing 4) [7]
       3).2.2.2.2.2 rfl (by decide),
   ((blocking_calls_return_semantics 1 State.Disconnected (mkRing 4) [7]
       3).2.2.2.1 (mkRing 4) (by decide)).1⟩

/-- C6 counterexample: a blocking read with an empty destination buffer
on a disconnected ring that still holds one undelivered byte
(`head = 1`, `tail = 0`) returns `None` — before the remaining buffered
data has been drained. -/
theorem blocking_read_none_with_bytes_buffered :
    blockingRead 1 State.Disconnected ((mkRing 4).write [7]).1 0
      = some (none, ((mkRing 4).write [7]).1)
    ∧ ((mkRing 4).write [7]).1.head = 1
    ∧ ((mkRing 4).write [7]).1.tail = 0 := by
  refine ⟨by decide, by decide, by decide⟩

theorem blockingWrite_open_empty :
    ∀ (fuel : Nat) (r : Ring), blockingWrite fuel State.Open r [] = none := by
  intro fuel
  induction fuel with
  | zero => intro r; rfl
  | succ fuel ih =>
      intro r
      have hz : (r.write []).2 = 0 := Nat.min_zero _
      simp [blockingWrite, block, hz, write_zero_ring r [] hz, ih]

theorem blockingWrite_blocked_empty (fuel : Nat) (r : Ring) :
    blockingWrite fuel State.Blocked r [] = none := by
  cases fuel with
  | zero => rfl
  | succ fuel =>
      have hz : (r.write []).2 = 0 := Nat.min_zero _
      simp [blockingWrite, block, hz]

theorem blockingRead_open_zero :
    ∀ (fuel : Nat) (r : Ring), blockingRead fuel State.Open r 0 = none := by
  intro fuel
  induction fuel with
  | zero => intro r; rfl
  | succ fuel ih =>
      intro r
      have hz : (r.read 0).2.length = 0 := by simp [Ring.read]
      simp [blockingRead, block, hz, read_zero_ring r 0 hz, ih]

theorem blockingRead_blocked_zero (fuel : Nat) (r : Ring) :
    blockingRead fuel State.Blocked r 0 = none := by
  cases fuel with
  | zero => rfl
  | succ fuel =>
      have hz : (r.read 0).2.length = 0 := by simp [Ring.read]
      simp [blockingRead, block, hz]

/-- C10: a blocking write/read with an empty buffer never returns
`Some(0)` (indeed never `Some` at all): the non-blocking cores transfer
0 bytes for an empty buffer (first two conjuncts), which the blocking
loop treats as "must block" — with state `Open` or `Blocked` the loop
never returns, whatever the fuel, and it returns (with `None`, the ring
unchanged) exactly when the state is `Disconnected`. -/
theorem blocking_empty_buffer_never_some (fuel : Nat) (r : Ring) :
    (r.write []).2 = 0
    ∧ (r.read 0).2.length = 0
    ∧ blockingWrite fuel State.Open r [] = none
    ∧ blockingWrite fuel State.Blocked r [] = none
    ∧ blockingWrite 0 State.Disconnected r [] = none
    ∧ blockingWrite (fuel + 1) State.Disconnected r [] = some (none, r)
    ∧ blockingRead fuel State.Open r 0 = none
    ∧ blockingRead fuel State.Blocked r 0 = none
    ∧ blockingRead 0 State.Disconnected r 0 = none
    ∧ blockingRead (fuel + 1) State.Disconnected r 0 = some (none, r) :=
  ⟨Nat.min_zero _, by simp [Ring.read],
   blockingWrite_open_empty fuel r, blockingWrite_blocked_empty fuel r, rfl,
   blockingWrite_disconnected_immediate fuel r [] (Nat.min_zero _),
   blockingRead_open_zero fuel r, blockingRead_blocked_zero fuel r, rfl,
   blockingRead_disconnected_immediate fuel r 0 (Nat.min_zero _)⟩

end Rivet
